import Mathlib

/-!
Verification development for the action-graph engine of the DungeonWhisperer
bot (`cogs/components/actions/*.py` and the menu/button dispatcher in
`cogs/components/__init__.py`).

The Python code is shallowly embedded: pure logic becomes Lean functions,
the mutable interaction context (member roles, guild roles, the role-group
database, and the platform's role store) is threaded explicitly as a `Ctx`
value, external side effects (responses, role mutations) are recorded in an
effect trace, and Python exceptions become `Except` values.  The external
role store is modelled per the specification of the platform: granting an
already-held role is a no-op and not an error; granting a non-held role may
be rejected by the platform (`Ctx.addFail`), which corresponds to
`discord.HTTPException`.
-/

namespace DungeonWhisperer

/-- Python dict assignment `d[k] = v` on an association list: replaces the
value at an existing key in place (keeping its original position, as Python
dicts do), otherwise appends the new binding at the end. -/
def assocSet {β : Type} : List (String × β) → String → β → List (String × β)
  | [], k, v => [(k, v)]
  | (k', v') :: rest, k, v =>
    if k' == k then (k, v) :: rest else (k', v') :: assocSet rest k v

/-- Python truthiness of an optional string (`None` and `""` are falsy). -/
def truthy : Option String → Bool
  | none => false
  | some s => !(s == "")

/-! ## Condition evaluation (`commands.py`, `Predicate._check_conditions`)

The two check functions are generic in the condition type `α` and in the
(side-effect-free) evaluation function `eval`; the second component of each
result records, in order, every condition on which `call` was awaited. -/

/-- Embeds `Predicate._check_conditions._check_or_group`: returns `True` for an
empty group; otherwise evaluates the first condition and then `|=`s in the
result of every remaining condition (all of them are evaluated). -/
def check_or_group {α : Type} (eval : α → Bool) : List α → Bool × List α
  | [] => (true, [])
  | c :: rest =>
    rest.foldl (fun acc c' => (acc.1 || eval c', acc.2 ++ [c'])) (eval c, [c])

/-- The `for group in self.conditions[1:]` loop of `_check_conditions`:
before each group the running result is tested and a false value returns
`False` without evaluating the remaining groups; otherwise the group's
OR-result is `&=`-ed into the running result. -/
def check_groups {α : Type} (eval : α → Bool) : Bool → List (List α) → Bool × List α
  | ret, [] => (ret, [])
  | ret, g :: rest =>
    if ret then
      let r := check_or_group eval g
      let rr := check_groups eval (ret && r.1) rest
      (rr.1, r.2 ++ rr.2)
    else (false, [])

/-- Embeds `Predicate._check_conditions`: `if not (self.conditions and
self.conditions[0]): return True`, then the group loop. -/
def check_conditions {α : Type} (eval : α → Bool) (cs : List (List α)) : Bool × List α :=
  match cs with
  | [] => (true, [])
  | g0 :: rest =>
    if g0.isEmpty then (true, [])
    else
      let r0 := check_or_group eval g0
      let rr := check_groups eval r0.1 rest
      (rr.1, r0.2 ++ rr.2)

/-- The formula claimed by the specification, read literally: AND over the
outer groups of (textbook OR over the conditions in each group), where the
OR of an empty group is `false`. -/
def andOfOr {α : Type} (eval : α → Bool) (cs : List (List α)) : Bool :=
  cs.all (fun g => g.any eval)

/-- The formula the code actually computes: the two vacuous special cases
(empty outer list, or first group empty) are `true`, and otherwise the
AND-of-ORs where a group with no conditions also counts as `true`. -/
def andOfOrVac {α : Type} (eval : α → Bool) : List (List α) → Bool
  | [] => true
  | g0 :: rest =>
    if g0.isEmpty then true
    else (g0 :: rest).all (fun g => g.isEmpty || g.any eval)

/-- Groups are evaluated in order, each fully, stopping after the first
group whose OR-result (with an empty group counting as true) is false. -/
def groupsTrace {α : Type} (eval : α → Bool) : List (List α) → List α
  | [] => []
  | g :: rest =>
    g ++ (if g.isEmpty || g.any eval then groupsTrace eval rest else [])

/-- The conditions evaluated by `check_conditions`, in order: nothing in the
two vacuous cases, otherwise `groupsTrace`. -/
def evalTraceSpec {α : Type} (eval : α → Bool) : List (List α) → List α
  | [] => []
  | g0 :: rest => if g0.isEmpty then [] else groupsTrace eval (g0 :: rest)

/-! ## Data model (`commands.py`, `conditions.py`) -/

/-- A built predicate condition (`conditions.py`): only the two role
conditions can be built; the permission condition types raise `ValueError`
in `PredicateCondition.from_dict` before any object is produced. -/
inductive Cond : Type
  | user_has_role (role_id : Nat)
  | guild_has_role (role_id : Nat)
deriving DecidableEq

/-- The interaction context plus the external collaborators, threaded
explicitly.  `roleGroups` models the `role_groups` database table for the
interaction's guild (`[]` is a lookup miss); `addFail` models the platform
rejecting a role grant (`discord.HTTPException`) for a role the member does
not already hold — granting an already-held role is a platform no-op and
never an error. -/
structure Ctx : Type where
  memberRoles : List Nat
  guildRoles : List Nat
  roleGroups : String → List Nat
  addFail : Nat → Bool

/-- Embeds `_EntityHasRoleCondition.call`: membership of the configured role id in
the author's (resp. guild's) role list. -/
def evalCond (ctx : Ctx) : Cond → Bool
  | .user_has_role r => ctx.memberRoles.contains r
  | .guild_has_role r => ctx.guildRoles.contains r

/-- Observable external side effects of one traversal, in order. -/
inductive Effect : Type
  | ackResponse
  | ephemeralResponse (content : String) (embed : List (String × String))
  | roleAdd (role_id : Nat)
  | roleRemove (role_ids : List Nat)
deriving DecidableEq

/-- Python exceptions that escape a node's `call` (and are not the two
control-flow callbacks). -/
inductive RunError : Type
  | notImplemented
  | keyError (key : String)
  | indexError
deriving DecidableEq

/-- The two control-flow callbacks of `callbacks.py`. -/
inductive Signal : Type
  | callNext (next_action_id : String)
  | exit
deriving DecidableEq

/-- A built action node (`commands.py`).  `addRole` carries its
`callbacks["on_http_error"]` entry; `Action.build` always leaves it `none`
because nothing in the source ever populates `callbacks`. -/
inductive Action : Type
  | ack (id : String)
  | addRole (id : String) (role_id : Nat) (next : Option String)
      (on_http_error : Option String)
  | predicate (id : String) (on_success on_failure : Option String)
      (conditions : List (List Cond))
  | removeRoleGroup (id : String) (group_name : String) (next : Option String)
  | removeRole (id : String) (next : Option String)
  | sendEphemeralMessage (id : String) (content : Option String)
      (embed : Option (List (String × String))) (next : Option String)
deriving DecidableEq

/-- The `id` attribute of a built action. -/
def Action.actionId : Action → String
  | .ack i => i
  | .addRole i _ _ _ => i
  | .predicate i _ _ _ => i
  | .removeRoleGroup i _ _ => i
  | .removeRole i _ => i
  | .sendEphemeralMessage i _ _ _ => i

/-- Embeds `Action._get_next`: `CallNext(next)` when the stored next id is truthy,
`Exit` otherwise. -/
def nextSignal : Option String → Signal
  | none => .exit
  | some s => if s == "" then .exit else .callNext s

/-- Embeds the `SendEphemeralMessage.call` embed fix-up: `if data.get("embed"):
data["embed"]["type"] = "rich"` (an absent or empty embed dict is left
untouched because it is falsy). -/
def mutateEmbed : Option (List (String × String)) → Option (List (String × String))
  | none => none
  | some e => if e.isEmpty then some e else some (assocSet e "type" "rich")

/-- One node execution (`Action.call` and its overrides): the updated
context, the effects produced, and either an escaping exception or the
control-flow outcome — `some` a callback signal, or `none` for a plain
return (which the traversal loop treats as the end of the traversal). -/
def Action.call (a : Action) (ctx : Ctx) :
    Ctx × List Effect × Except RunError (Option Signal) :=
  match a with
  | .ack _ => (ctx, [.ackResponse], .ok (some .exit))
  | .addRole _ rid next cbs =>
    if ctx.memberRoles.contains rid then
      -- platform no-op for an already-held role; normal next resolution
      (ctx, [], .ok (some (nextSignal next)))
    else if ctx.addFail rid then
      -- except discord.HTTPException: callbacks.pop("on_http_error", next)
      let nid := match cbs with | some v => some v | none => next
      if truthy nid then
        (ctx, [], .ok (some (.callNext (match nid with | some s => s | none => ""))))
      else
        -- fall through to self._get_next()
        (ctx, [], .ok (some (nextSignal next)))
    else
      (⟨ctx.memberRoles ++ [rid], ctx.guildRoles, ctx.roleGroups, ctx.addFail⟩,
       [.roleAdd rid], .ok (some (nextSignal next)))
  | .predicate _ onS onF css =>
    let result := (check_conditions (evalCond ctx) css).1
    let sig :=
      if result && truthy onS then
        Signal.callNext (match onS with | some s => s | none => "")
      else if !result && truthy onF then
        Signal.callNext (match onF with | some s => s | none => "")
      else Signal.exit
    (ctx, [], .ok (some sig))
  | .removeRoleGroup _ gname next =>
    let rows := ctx.roleGroups gname
    if rows.isEmpty then
      -- lookup miss: logged, then self._get_next()
      (ctx, [], .ok (some (nextSignal next)))
    else
      let grouped := rows.filter (fun r => ctx.memberRoles.contains r)
      if grouped.isEmpty then (ctx, [], .ok (some (nextSignal next)))
      else
        (⟨ctx.memberRoles.filter (fun r => !(grouped.contains r)),
          ctx.guildRoles, ctx.roleGroups, ctx.addFail⟩,
         [.roleRemove grouped], .ok (some (nextSignal next)))
  | .removeRole _ _ => (ctx, [], .error .notImplemented)
  | .sendEphemeralMessage _ content embed _ =>
    match content with
    | none => (ctx, [], .error (.keyError "content"))
    | some c =>
      match mutateEmbed embed with
      | none => (ctx, [], .error (.keyError "embed"))
      | some e => (ctx, [.ephemeralResponse c e], .ok none)

/-- Nodes whose `call` can never raise a non-callback exception: everything
except the unimplemented `REMOVE_ROLE` and a `SEND_EPHEMERAL_MESSAGE` whose
payload lacks the `content` or `embed` key. -/
def wellImplemented : Action → Bool
  | .removeRole _ _ => false
  | .sendEphemeralMessage _ content embed _ => content.isSome && embed.isSome
  | _ => true

/-- Every node of a table is `wellImplemented`. -/
def errorFreeTable (t : List (String × Action)) : Bool :=
  t.all (fun p => wellImplemented p.2)

/-! ## Traversal (`environment.py`, `ActionEvent._recursively_execute_actions`) -/

/-- The `self._key` lookup on the node table. -/
def lookupTable (t : List (String × Action)) (k : String) : Option Action :=
  (t.find? (fun p => p.1 == k)).map (fun p => p.2)

/-- The removal performed by `self._key.pop(action_id, None)`. -/
def removeKey (t : List (String × Action)) (k : String) : List (String × Action) :=
  t.filter (fun p => !(p.1 == k))

/-- The final configuration of one traversal: final context, effect trace,
the ids of the nodes executed in order, the way the traversal ended
(`.ok ()` is the `Terminated` state, `.error` an escaping exception), and
the remaining node table. -/
structure RunResult : Type where
  ctx : Ctx
  effects : List Effect
  execTrace : List String
  outcome : Except RunError Unit
  table : List (String × Action)

/-- Embeds `_recursively_execute_actions`, fuel-indexed so that the recursion is
structural: the node is popped from the table, then executed; `CallNext`
recurses on the shrunken table, `Exit` and a plain return end the traversal,
and any other exception aborts it.  `none` means the fuel ran out, which
`runFromAux_isSome` shows never happens from `fuel > |table|`. -/
def runFromAux (fuel : Nat) (ctx : Ctx) (t : List (String × Action)) (i : String) :
    Option RunResult :=
  match fuel with
  | 0 => none
  | fuel + 1 =>
    match lookupTable t i with
    | none => some ⟨ctx, [], [], .ok (), t⟩
    | some a =>
      let t' := removeKey t i
      let r := a.call ctx
      match r.2.2 with
      | .error e => some ⟨r.1, r.2.1, [i], .error e, t'⟩
      | .ok none => some ⟨r.1, r.2.1, [i], .ok (), t'⟩
      | .ok (some .exit) => some ⟨r.1, r.2.1, [i], .ok (), t'⟩
      | .ok (some (.callNext nid)) =>
        match runFromAux fuel r.1 t' nid with
        | none => none
        | some res =>
          some ⟨res.ctx, r.2.1 ++ res.effects, i :: res.execTrace, res.outcome, res.table⟩

/-- One traversal of a node table from a given id (`ActionEvent.execute`
starts it from the entrypoint). -/
def runFrom (ctx : Ctx) (t : List (String × Action)) (i : String) : RunResult :=
  (runFromAux (t.length + 1) ctx t i).getD ⟨ctx, [], [], .ok (), t⟩

/-! ## Graph loading (`Action.build`, `PredicateCondition.from_dict`,
`ActionEvent.__init__`, `ActionEnvironment.__init__`)

The JSON documents are modelled structurally: a required JSON field that the
Python code reads with `d["k"]` becomes an `Option` whose `none` case is the
`KeyError`; `ValueError` covers an unknown enum value and the explicit
`raise ValueError` calls. -/

/-- A build-time exception (`ConfigurationError` family of the spec). -/
inductive BuildError : Type
  | valueError
  | keyError (key : String)
deriving DecidableEq

/-- One entry of a `PREDICATE`'s `conditions` groups: the `condition` tag
string and the optional `data.role_id` / `data.permissions_value` fields. -/
structure CondJson : Type where
  condition : String
  role_id : Option Nat
  permissions_value : Option Nat
deriving DecidableEq

/-- The command-specific `data` payload of an action JSON object, with every
field optional (a field the command requires but the document lacks raises
`KeyError`). -/
structure Payload : Type where
  role_id : Option Nat := none
  group_name : Option String := none
  on_success : Option String := none
  on_failure : Option String := none
  conditions : Option (List (List CondJson)) := none
  content : Option String := none
  embed : Option (List (String × String)) := none
deriving DecidableEq

/-- One element of an event's `actions` array. -/
structure ActionJson : Type where
  id : String
  command : String
  payload : Payload
  next : Option String := none
deriving DecidableEq

/-- Embeds `PredicateCondition.from_dict`: the tag must be one of the four enum
values of `PredicateConditionType` (else `ValueError`); the two role
conditions then require `data.role_id`; the two permission condition tags
fall through `from_dict`'s dispatch to `raise ValueError`. -/
def buildCond (j : CondJson) : Except BuildError Cond :=
  if j.condition == "USER_HAS_ROLE" then
    match j.role_id with
    | none => .error (.keyError "role_id")
    | some r => .ok (.user_has_role r)
  else if j.condition == "GUILD_HAS_ROLE" then
    match j.role_id with
    | none => .error (.keyError "role_id")
    | some r => .ok (.guild_has_role r)
  else .error .valueError

/-- Builds one OR group of conditions, failing on the first bad entry. -/
def buildCondGroup : List CondJson → Except BuildError (List Cond)
  | [] => .ok []
  | j :: rest =>
    match buildCond j with
    | .error e => .error e
    | .ok c =>
      match buildCondGroup rest with
      | .error e => .error e
      | .ok cs => .ok (c :: cs)

/-- Builds the outer conjunction of OR groups. -/
def buildCondGroups : List (List CondJson) → Except BuildError (List (List Cond))
  | [] => .ok []
  | g :: rest =>
    match buildCondGroup g with
    | .error e => .error e
    | .ok c =>
      match buildCondGroups rest with
      | .error e => .error e
      | .ok cs => .ok (c :: cs)

/-- Embeds `Action.build`: dispatches on the command tag (`ValueError` for an
unknown one) and runs the chosen class's `__init__` validation — `Ack` and
`Predicate` reject a truthy `next`, `AddRole` / `RemoveRoleGroup` /
`Predicate` read their required payload fields. -/
def Action.build (j : ActionJson) : Except BuildError Action :=
  if j.command == "ACK" then
    if truthy j.next then .error .valueError else .ok (.ack j.id)
  else if j.command == "ADD_ROLE" then
    match j.payload.role_id with
    | none => .error (.keyError "role_id")
    | some r => .ok (.addRole j.id r j.next none)
  else if j.command == "PREDICATE" then
    if truthy j.next then .error .valueError
    else
      match j.payload.conditions with
      | none => .error (.keyError "conditions")
      | some css =>
        match buildCondGroups css with
        | .error e => .error e
        | .ok built => .ok (.predicate j.id j.payload.on_success j.payload.on_failure built)
  else if j.command == "REMOVE_ROLE_GROUP" then
    match j.payload.group_name with
    | none => .error (.keyError "group_name")
    | some g => .ok (.removeRoleGroup j.id g j.next)
  else if j.command == "REMOVE_ROLE" then
    .ok (.removeRole j.id j.next)
  else if j.command == "SEND_EPHEMERAL_MESSAGE" then
    .ok (.sendEphemeralMessage j.id j.payload.content j.payload.embed j.next)
  else .error .valueError

/-- The `for action in data["actions"]` loop: each action is built in order,
the first exception aborting the whole load. -/
def buildActions : List ActionJson → Except BuildError (List Action)
  | [] => .ok []
  | j :: rest =>
    match Action.build j with
    | .error e => .error e
    | .ok a =>
      match buildActions rest with
      | .error e => .error e
      | .ok as => .ok (a :: as)

/-- The `self._key[action.id] = action` loop over all built actions. -/
def buildTable (as : List Action) : List (String × Action) :=
  as.foldl (fun t a => assocSet t a.actionId a) []

/-- One element of the document's `events` array. -/
structure EventJson : Type where
  id : String
  entrypoint : String
  actions : List ActionJson
deriving DecidableEq

/-- A loaded `ActionEvent`: name, entrypoint id and node table. -/
structure ActionEvent : Type where
  id : String
  entrypoint : String
  table : List (String × Action)
deriving DecidableEq

/-- Embeds `ActionEvent.__init__`: builds every action, fills the node table, then
resolves `self._key[data["entrypoint"]]` — a `KeyError` when the entrypoint
id is not a key of the table. -/
def ActionEvent.build (j : EventJson) : Except BuildError ActionEvent :=
  match buildActions j.actions with
  | .error e => .error e
  | .ok as =>
    let t := buildTable as
    match lookupTable t j.entrypoint with
    | none => .error (.keyError j.entrypoint)
    | some _ => .ok ⟨j.id, j.entrypoint, t⟩

/-- One traversal of an event's graph (`ActionEvent.execute`). -/
def ActionEvent.execute (e : ActionEvent) (ctx : Ctx) : RunResult :=
  runFrom ctx e.table e.entrypoint

/-! ## Environment dispatch (`ActionEnvironment.execute`,
`MessageComponents.on_dropdown` in `cogs/components/__init__.py`) -/

/-- The whole stored document for one component (resp. one menu option). -/
structure EnvJson : Type where
  envType : String
  events : List EventJson
deriving DecidableEq

/-- A loaded `ActionEnvironment`. -/
structure ActionEnvironment : Type where
  envType : String
  events : List ActionEvent
deriving DecidableEq

/-- The `for event in data["events"]` comprehension of
`ActionEnvironment.__init__`. -/
def buildEvents : List EventJson → Except BuildError (List ActionEvent)
  | [] => .ok []
  | j :: rest =>
    match ActionEvent.build j with
    | .error e => .error e
    | .ok ev =>
      match buildEvents rest with
      | .error e => .error e
      | .ok evs => .ok (ev :: evs)

/-- Embeds `ActionEnvironment.__init__`: `ActionEnvironmentType(data["type"])`
(`ValueError` unless `"buttons"` or `"menus"`), then the events. -/
def ActionEnvironment.build (j : EnvJson) : Except BuildError ActionEnvironment :=
  if j.envType == "buttons" || j.envType == "menus" then
    match buildEvents j.events with
    | .error e => .error e
    | .ok evs => .ok ⟨j.envType, evs⟩
  else .error .valueError

/-- The result of running the events an environment selects for one
interaction: final context, concatenated effects, the ids of the events
executed in order, the first escaping exception if any, and the events list
with each executed event's (consumed) node table written back. -/
structure EventsRunResult : Type where
  ctx : Ctx
  effects : List Effect
  eventTrace : List String
  outcome : Except RunError Unit
  events : List ActionEvent

/-- The select-menu branch of `ActionEnvironment.execute`: the events named
`on_menu_select` / `on_menu_unselect` are executed in declaration order,
one after the other (each traversal is awaited before the next begins); an
escaping exception stops the loop. -/
def runMenuEvents (ctx : Ctx) : List ActionEvent → EventsRunResult
  | [] => ⟨ctx, [], [], .ok (), []⟩
  | e :: rest =>
    if e.id == "on_menu_select" || e.id == "on_menu_unselect" then
      let r := ActionEvent.execute e ctx
      let e' : ActionEvent := ⟨e.id, e.entrypoint, r.table⟩
      match r.outcome with
      | .error err => ⟨r.ctx, r.effects, [e.id], .error err, e' :: rest⟩
      | .ok _ =>
        let rr := runMenuEvents r.ctx rest
        ⟨rr.ctx, r.effects ++ rr.effects, e.id :: rr.eventTrace, rr.outcome, e' :: rr.events⟩
    else
      let rr := runMenuEvents ctx rest
      ⟨rr.ctx, rr.effects, rr.eventTrace, rr.outcome, e :: rr.events⟩

/-- Which kind of component the incoming interaction carries. -/
inductive ComponentKind : Type
  | button
  | selectMenu
deriving DecidableEq

/-- The button branch of `ActionEnvironment.execute`:
`filter(id == "on_button_click")[0]` — an `IndexError` when no such event
exists, otherwise that single event is executed. -/
def runButtonEvent (ctx : Ctx) (events : List ActionEvent) : EventsRunResult :=
  match events.filter (fun e => e.id == "on_button_click") with
  | [] => ⟨ctx, [], [], .error .indexError, events⟩
  | e :: _ =>
    let r := ActionEvent.execute e ctx
    let events' := events.map
      (fun ev => if ev.id == "on_button_click" && ev == e then ⟨e.id, e.entrypoint, r.table⟩ else ev)
    match r.outcome with
    | .error err => ⟨r.ctx, r.effects, [e.id], .error err, events'⟩
    | .ok _ => ⟨r.ctx, r.effects, [e.id], .ok (), events'⟩

/-- Embeds `ActionEnvironment.execute`. -/
def ActionEnvironment.execute (env : ActionEnvironment) (kind : ComponentKind) (ctx : Ctx) :
    EventsRunResult :=
  match kind with
  | .button => runButtonEvent ctx env.events
  | .selectMenu => runMenuEvents ctx env.events

/-- One row of the `menu_actions` table for the interacted menu: the option
label it is keyed by, and its (already JSON-decoded) action document. -/
structure MenuRow : Type where
  option_label : String
  action : EnvJson
deriving DecidableEq

/-- The `key[row["option_label"]] = ActionEnvironment(...)` loop of
`on_dropdown`: every row's environment is constructed before any execution;
a construction exception aborts the whole dispatch. -/
def buildKey : List MenuRow → Except BuildError (List (String × ActionEnvironment))
  | [] => .ok []
  | r :: rest =>
    match ActionEnvironment.build r.action with
    | .error e => .error e
    | .ok env =>
      match buildKey rest with
      | .error e => .error e
      | .ok k => .ok (assocSet k r.option_label env)

/-- The result of the selected-options loop of `on_dropdown`: per selected
option, the label together with the ids of the events run for it. -/
structure MenuDispatchResult : Type where
  ctx : Ctx
  effects : List Effect
  runTrace : List (String × List String)
  outcome : Except RunError Unit
  key : List (String × ActionEnvironment)

/-- The `for selected_option in interaction.component.selected_options` loop: a label
with no environment is logged and skipped; otherwise that option's
environment is executed (awaited to completion) before the next option is
considered; an escaping exception aborts the loop. -/
def runSelected (ctx : Ctx) (key : List (String × ActionEnvironment)) :
    List String → MenuDispatchResult
  | [] => ⟨ctx, [], [], .ok (), key⟩
  | label :: rest =>
    match (key.find? (fun p => p.1 == label)).map (fun p => p.2) with
    | none =>
      let rr := runSelected ctx key rest
      ⟨rr.ctx, rr.effects, rr.runTrace, rr.outcome, rr.key⟩
    | some env =>
      let r := env.execute .selectMenu ctx
      let key' := assocSet key label ⟨env.envType, r.events⟩
      match r.outcome with
      | .error e => ⟨r.ctx, r.effects, [(label, r.eventTrace)], .error e, key'⟩
      | .ok _ =>
        let rr := runSelected r.ctx key' rest
        ⟨rr.ctx, r.effects ++ rr.effects, (label, r.eventTrace) :: rr.runTrace, rr.outcome, rr.key⟩

/-- The whole `on_dropdown` listener: build the label-keyed environments
from the fetched rows, then run the loop over the currently selected
options. -/
def onDropdown (ctx : Ctx) (rows : List MenuRow) (selectedLabels : List String) :
    Except BuildError MenuDispatchResult :=
  match buildKey rows with
  | .error e => .error e
  | .ok key => .ok (runSelected ctx key selectedLabels)

/-- The ids of an environment's events, in declaration order. -/
def eventIds (env : ActionEnvironment) : List String :=
  env.events.map (fun e => e.id)

/-- The per-label shape of the key map that determines which events run for
which option: for each label, its environment's event ids in declaration
order. -/
def keyShape (key : List (String × ActionEnvironment)) : List (String × List String) :=
  key.map (fun p => (p.1, eventIds p.2))

/-- The claim's description of the menu dispatch: for each currently
selected option, in the order the platform lists them, the events run are
exactly the ones named `on_menu_select` / `on_menu_unselect` in that
option's environment, in the environment's event-declaration order; an
option with no environment is skipped. -/
def menuTraceSpec (shape : List (String × List String)) : List String → List (String × List String)
  | [] => []
  | label :: rest =>
    match (shape.find? (fun p => p.1 == label)).map (fun p => p.2) with
    | none => menuTraceSpec shape rest
    | some ids =>
      (label, ids.filter (fun s => s == "on_menu_select" || s == "on_menu_unselect"))
        :: menuTraceSpec shape rest

/-- Every node table of every event of the environment is error-free. -/
def envErrorFree (env : ActionEnvironment) : Bool :=
  env.events.all (fun e => errorFreeTable e.table)

/-- Every environment of the key map is error-free. -/
def keyErrorFree (key : List (String × ActionEnvironment)) : Bool :=
  key.all (fun p => envErrorFree p.2)

/-! ## Concrete fixtures used to instantiate the theorems below -/

/-- An interaction context with no roles and a fully available platform. -/
def ctx0 : Ctx := ⟨[], [], fun _ => [], fun _ => false⟩

/-- A context in which the platform rejects every role grant. -/
def ctxF : Ctx := ⟨[], [], fun _ => [], fun _ => true⟩

/-- A context in which the member already holds role `5`. -/
def ctxH : Ctx := ⟨[5], [], fun _ => [], fun _ => false⟩

/-- A context with member roles `[1, 2]` and one role group
`"grp" ↦ [2, 3]`. -/
def ctxG : Ctx := ⟨[1, 2], [], fun g => if g == "grp" then [2, 3] else [], fun _ => false⟩

/-- A two-node graph with a cycle reachable from `"a"`:
`"a"` grants a role and continues to `"b"`, whose (vacuously true) predicate
branches back to `"a"`. -/
def tCyc : List (String × Action) :=
  [("a", .addRole "a" 1 (some "b") none),
   ("b", .predicate "b" (some "a") none [])]

/-- A graph whose entry `SEND_EPHEMERAL_MESSAGE` node declares `next = "b"`
pointing at an existing `ACK` node. -/
def tSE : List (String × Action) :=
  [("s", .sendEphemeralMessage "s" (some "hi") (some [("title", "t")]) (some "b")),
   ("b", .ack "b")]

/-- An empty command payload. -/
def payload0 : Payload := ⟨none, none, none, none, none, none, none⟩

/-- An event document whose entrypoint `"x"` is not among its action ids. -/
def jEv : EventJson := ⟨"ev", "x", [⟨"a", "ACK", payload0, none⟩]⟩

/-- A one-option key map: option `"opt1"` carries an environment with an
`on_menu_select` event, an unrelated `other` event, and an
`on_menu_unselect` event, each with a one-`ACK` graph. -/
def keyW : List (String × ActionEnvironment) :=
  [("opt1", ⟨"menus",
    [⟨"on_menu_select", "a", [("a", .ack "a")]⟩,
     ⟨"other", "x", [("x", .ack "x")]⟩,
     ⟨"on_menu_unselect", "b", [("b", .ack "b")]⟩]⟩)]

/-! ## Lemmas: condition evaluation -/

theorem foldl_or_step {α : Type} (eval : α → Bool) :
    ∀ (rest : List α) (b : Bool) (l : List α),
      rest.foldl (fun acc c' => (acc.1 || eval c', acc.2 ++ [c'])) (b, l)
        = (b || rest.any eval, l ++ rest) := by
  intro rest
  induction rest with
  | nil => intro b l; simp
  | cons c rest ih =>
    intro b l
    simp only [List.foldl_cons, List.any_cons, ih]
    simp [Prod.ext_iff, Bool.or_assoc]

theorem check_or_group_trace {α : Type} (eval : α → Bool) (g : List α) :
    (check_or_group eval g).2 = g := by
  cases g with
  | nil => rfl
  | cons c rest => simp [check_or_group, foldl_or_step]

theorem check_or_group_result {α : Type} (eval : α → Bool) (g : List α) :
    (check_or_group eval g).1 = (g.isEmpty || g.any eval) := by
  cases g with
  | nil => rfl
  | cons c rest => simp [check_or_group, foldl_or_step]

theorem check_groups_result {α : Type} (eval : α → Bool) :
    ∀ (gs : List (List α)) (ret : Bool),
      (check_groups eval ret gs).1 = (ret && gs.all (fun g => g.isEmpty || g.any eval)) := by
  intro gs
  induction gs with
  | nil => intro ret; cases ret <;> simp [check_groups]
  | cons g rest ih =>
    intro ret
    cases ret with
    | false => simp [check_groups]
    | true => simp [check_groups, ih, check_or_group_result, Bool.and_assoc]

theorem check_groups_trace {α : Type} (eval : α → Bool) :
    ∀ (gs : List (List α)) (ret : Bool),
      (check_groups eval ret gs).2 = if ret then groupsTrace eval gs else [] := by
  intro gs
  induction gs with
  | nil => intro ret; cases ret <;> simp [check_groups, groupsTrace]
  | cons g rest ih =>
    intro ret
    cases ret with
    | false => simp [check_groups]
    | true => simp [check_groups, ih, check_or_group_result, check_or_group_trace, groupsTrace]

theorem check_conditions_result {α : Type} (eval : α → Bool) (cs : List (List α)) :
    (check_conditions eval cs).1 = andOfOrVac eval cs := by
  cases cs with
  | nil => rfl
  | cons g0 rest =>
    by_cases h0 : g0.isEmpty
    · simp [check_conditions, andOfOrVac, h0]
    · simp [check_conditions, andOfOrVac, h0, check_groups_result, check_or_group_result,
        List.all_cons]

theorem check_conditions_trace {α : Type} (eval : α → Bool) (cs : List (List α)) :
    (check_conditions eval cs).2 = evalTraceSpec eval cs := by
  cases cs with
  | nil => rfl
  | cons g0 rest =>
    by_cases h0 : g0.isEmpty
    · simp [check_conditions, evalTraceSpec, h0]
    · simp [check_conditions, evalTraceSpec, h0, check_groups_trace, check_or_group_result,
        check_or_group_trace, groupsTrace]

/-! ## Lemmas: the node table -/

theorem lookupTable_removeKey_self (t : List (String × Action)) (i : String) :
    lookupTable (removeKey t i) i = none := by
  unfold lookupTable removeKey
  rw [Option.map_eq_none', List.find?_eq_none]
  intro x hx
  rcases List.mem_filter.mp hx with ⟨-, hpred⟩
  simpa using hpred

theorem lookupTable_removeKey_none (t : List (String × Action)) (i j : String)
    (h : lookupTable t j = none) : lookupTable (removeKey t i) j = none := by
  unfold lookupTable removeKey
  unfold lookupTable at h
  rw [Option.map_eq_none', List.find?_eq_none]
  rw [Option.map_eq_none', List.find?_eq_none] at h
  intro x hx
  exact h x (List.mem_filter.mp hx).1

theorem removeKey_length_lt (t : List (String × Action)) (i : String) (a : Action)
    (h : lookupTable t i = some a) : (removeKey t i).length < t.length := by
  induction t with
  | nil => simp [lookupTable] at h
  | cons p rest ih =>
    by_cases hp : p.1 == i
    · have : removeKey (p :: rest) i = removeKey rest i := by
        simp [removeKey, List.filter_cons, hp]
      rw [this]
      calc (removeKey rest i).length ≤ rest.length := List.length_filter_le _ _
        _ < (p :: rest).length := by simp
    · have hrest : lookupTable rest i = some a := by
        simpa [lookupTable, List.find?_cons, hp] using h
      have : removeKey (p :: rest) i = p :: removeKey rest i := by
        simp [removeKey, List.filter_cons, hp]
      rw [this]
      simpa using ih hrest

theorem removeKey_sublist (t : List (String × Action)) (i : String) :
    (removeKey t i).Sublist t :=
  List.filter_sublist t

theorem lookupTable_mem (t : List (String × Action)) (i : String) (a : Action)
    (h : lookupTable t i = some a) : (i, a) ∈ t := by
  unfold lookupTable at h
  rcases Option.map_eq_some'.mp h with ⟨p, hfind, hp2⟩
  have hmem := List.mem_of_find?_eq_some hfind
  have hpred := List.find?_some hfind
  have h1 : p.1 = i := by simpa using hpred
  subst hp2
  rcases p with ⟨k, v⟩
  simp only at h1
  subst h1
  exact hmem

/-! ## Lemmas: the traversal -/

theorem runFromAux_isSome (fuel : Nat) :
    ∀ (ctx : Ctx) (t : List (String × Action)) (i : String), t.length < fuel →
      (runFromAux fuel ctx t i).isSome = true := by
  induction fuel with
  | zero => intro ctx t i h; omega
  | succ fuel ih =>
    intro ctx t i h
    unfold runFromAux
    cases hl : lookupTable t i with
    | none => simp [hl]
    | some a =>
      cases hc : (a.call ctx).2.2 with
      | error e => simp [hl, hc]
      | ok s =>
        cases s with
        | none => simp [hl, hc]
        | some sig =>
          cases sig with
          | exit => simp [hl, hc]
          | callNext nid =>
            have hlt : (removeKey t i).length < fuel := by
              have := removeKey_length_lt t i a hl
              omega
            have hsome := ih (a.call ctx).1 (removeKey t i) nid hlt
            cases hr : runFromAux fuel (a.call ctx).1 (removeKey t i) nid with
            | none => simp only [hr] at hsome; simp at hsome
            | some res => simp [hl, hc, hr]

theorem runFrom_eq_aux (ctx : Ctx) (t : List (String × Action)) (i : String) :
    runFromAux (t.length + 1) ctx t i = some (runFrom ctx t i) := by
  have h := runFromAux_isSome (t.length + 1) ctx t i (by omega)
  cases hr : runFromAux (t.length + 1) ctx t i with
  | none => simp only [hr] at h; simp at h
  | some res => simp [runFrom, hr]

theorem runFromAux_spec (fuel : Nat) :
    ∀ (ctx : Ctx) (t : List (String × Action)) (i : String) (res : RunResult),
      runFromAux fuel ctx t i = some res →
      res.execTrace.Nodup ∧
      res.execTrace.length ≤ t.length ∧
      (∀ j ∈ res.execTrace, lookupTable t j ≠ none) ∧
      (∀ j ∈ res.execTrace, lookupTable res.table j = none) ∧
      (∀ j, lookupTable t j = none → lookupTable res.table j = none) := by
  induction fuel with
  | zero => intro ctx t i res h; simp [runFromAux] at h
  | succ fuel ih =>
    intro ctx t i res h
    unfold runFromAux at h
    cases hl : lookupTable t i with
    | none =>
      simp only [hl] at h
      injection h with h
      subst h
      refine ⟨by simp, by simp, by simp, by simp, fun j hj => hj⟩
    | some a =>
      simp only [hl] at h
      have hpos : 1 ≤ t.length := by
        have := lookupTable_mem t i a hl
        cases t with
        | nil => simp at this
        | cons p rest => simp
      have hlen := removeKey_length_lt t i a hl
      cases hc : (a.call ctx).2.2 with
      | error e =>
        simp only [hc] at h
        injection h with h
        subst h
        refine ⟨by simp, by simpa using hpos, ?_, ?_, ?_⟩
        · intro j hj
          simp at hj
          subst hj
          simp [hl]
        · intro j hj
          simp at hj
          subst hj
          exact lookupTable_removeKey_self t _
        · intro j hj
          exact lookupTable_removeKey_none t i j hj
      | ok s =>
        cases s with
        | none =>
          simp only [hc] at h
          injection h with h
          subst h
          refine ⟨by simp, by simpa using hpos, ?_, ?_, ?_⟩
          · intro j hj
            simp at hj
            subst hj
            simp [hl]
          · intro j hj
            simp at hj
            subst hj
            exact lookupTable_removeKey_self t _
          · intro j hj
            exact lookupTable_removeKey_none t i j hj
        | some sig =>
          cases sig with
          | exit =>
            simp only [hc] at h
            injection h with h
            subst h
            refine ⟨by simp, by simpa using hpos, ?_, ?_, ?_⟩
            · intro j hj
              simp at hj
              subst hj
              simp [hl]
            · intro j hj
              simp at hj
              subst hj
              exact lookupTable_removeKey_self t _
            · intro j hj
              exact lookupTable_removeKey_none t i j hj
          | callNext nid =>
            simp only [hc] at h
            cases hr : runFromAux fuel (a.call ctx).1 (removeKey t i) nid with
            | none => simp only [hr] at h; simp at h
            | some res' =>
              simp only [hr] at h
              injection h with h
              subst h
              obtain ⟨nd', len', mem', rem', mono'⟩ := ih (a.call ctx).1 (removeKey t i) nid res' hr
              have hnotin : i ∉ res'.execTrace := by
                intro hmem
                exact mem' i hmem (lookupTable_removeKey_self t i)
              refine ⟨?_, ?_, ?_, ?_, ?_⟩
              · simpa using ⟨hnotin, nd'⟩
              · simp only [List.length_cons]
                omega
              · intro j hj
                simp only [List.mem_cons] at hj
                rcases hj with hj | hj
                · subst hj; simp [hl]
                · intro hnone
                  exact mem' j hj (lookupTable_removeKey_none t i j hnone)
              · intro j hj
                simp only [List.mem_cons] at hj
                rcases hj with hj | hj
                · subst hj
                  exact mono' _ (lookupTable_removeKey_self t _)
                · exact rem' j hj
              · intro j hj
                exact mono' j (lookupTable_removeKey_none t i j hj)

/-! ## Lemmas: error-free tables -/

theorem wellImplemented_call_ok (a : Action) (ctx : Ctx) (h : wellImplemented a = true) :
    ∃ s, (a.call ctx).2.2 = .ok s := by
  cases a with
  | ack i => exact ⟨some .exit, rfl⟩
  | addRole i rid next cbs =>
    simp only [Action.call]
    repeat' split
    all_goals exact ⟨_, rfl⟩
  | predicate i onS onF css => exact ⟨_, rfl⟩
  | removeRoleGroup i g next =>
    simp only [Action.call]
    repeat' split
    all_goals exact ⟨_, rfl⟩
  | removeRole i next => simp [wellImplemented] at h
  | sendEphemeralMessage i content embed next =>
    simp only [wellImplemented, Bool.and_eq_true, Option.isSome_iff_exists] at h
    obtain ⟨⟨c, hc⟩, ⟨e, he⟩⟩ := h
    subst hc
    subst he
    simp only [Action.call, mutateEmbed]
    by_cases h1 : e.isEmpty = true
    · rw [if_pos h1]
      exact ⟨_, rfl⟩
    · rw [if_neg h1]
      exact ⟨_, rfl⟩

theorem errorFreeTable_lookup (t : List (String × Action)) (i : String) (a : Action)
    (hfree : errorFreeTable t = true) (hl : lookupTable t i = some a) :
    wellImplemented a = true := by
  have hmem := lookupTable_mem t i a hl
  rw [errorFreeTable, List.all_eq_true] at hfree
  exact hfree (i, a) hmem

theorem errorFreeTable_sublist (t t' : List (String × Action)) (hsub : t'.Sublist t)
    (hfree : errorFreeTable t = true) : errorFreeTable t' = true := by
  rw [errorFreeTable, List.all_eq_true] at hfree ⊢
  intro p hp
  exact hfree p (hsub.subset hp)

theorem runFromAux_table_sublist (fuel : Nat) :
    ∀ (ctx : Ctx) (t : List (String × Action)) (i : String) (res : RunResult),
      runFromAux fuel ctx t i = some res → res.table.Sublist t := by
  induction fuel with
  | zero => intro ctx t i res h; simp [runFromAux] at h
  | succ fuel ih =>
    intro ctx t i res h
    unfold runFromAux at h
    cases hl : lookupTable t i with
    | none =>
      simp only [hl] at h
      injection h with h
      subst h
      exact List.Sublist.refl t
    | some a =>
      simp only [hl] at h
      cases hc : (a.call ctx).2.2 with
      | error e =>
        simp only [hc] at h; injection h with h; subst h
        exact removeKey_sublist t i
      | ok s =>
        cases s with
        | none =>
          simp only [hc] at h; injection h with h; subst h
          exact removeKey_sublist t i
        | some sig =>
          cases sig with
          | exit =>
            simp only [hc] at h; injection h with h; subst h
            exact removeKey_sublist t i
          | callNext nid =>
            simp only [hc] at h
            cases hr : runFromAux fuel (a.call ctx).1 (removeKey t i) nid with
            | none => simp only [hr] at h; simp at h
            | some res' =>
              simp only [hr] at h
              injection h with h
              subst h
              exact (ih (a.call ctx).1 (removeKey t i) nid res' hr).trans (removeKey_sublist t i)

theorem runFromAux_ok (fuel : Nat) :
    ∀ (ctx : Ctx) (t : List (String × Action)) (i : String) (res : RunResult),
      runFromAux fuel ctx t i = some res → errorFreeTable t = true →
      res.outcome = .ok () := by
  induction fuel with
  | zero => intro ctx t i res h; simp [runFromAux] at h
  | succ fuel ih =>
    intro ctx t i res h hfree
    unfold runFromAux at h
    cases hl : lookupTable t i with
    | none =>
      simp only [hl] at h
      injection h with h
      subst h
      rfl
    | some a =>
      simp only [hl] at h
      have hwell := errorFreeTable_lookup t i a hfree hl
      obtain ⟨s, hs⟩ := wellImplemented_call_ok a ctx hwell
      cases hc : (a.call ctx).2.2 with
      | error e => simp only [hc] at hs; simp at hs
      | ok s' =>
        cases s' with
        | none =>
          simp only [hc] at h; injection h with h; subst h; rfl
        | some sig =>
          cases sig with
          | exit =>
            simp only [hc] at h; injection h with h; subst h; rfl
          | callNext nid =>
            simp only [hc] at h
            cases hr : runFromAux fuel (a.call ctx).1 (removeKey t i) nid with
            | none => simp only [hr] at h; simp at h
            | some res' =>
              simp only [hr] at h
              injection h with h
              subst h
              exact ih (a.call ctx).1 (removeKey t i) nid res' hr
                (errorFreeTable_sublist t _ (removeKey_sublist t i) hfree)

theorem runFrom_outcome_ok (ctx : Ctx) (t : List (String × Action)) (i : String)
    (hfree : errorFreeTable t = true) : (runFrom ctx t i).outcome = .ok () :=
  runFromAux_ok (t.length + 1) ctx t i (runFrom ctx t i) (runFrom_eq_aux ctx t i) hfree

theorem runFrom_table_sublist (ctx : Ctx) (t : List (String × Action)) (i : String) :
    (runFrom ctx t i).table.Sublist t :=
  runFromAux_table_sublist (t.length + 1) ctx t i (runFrom ctx t i) (runFrom_eq_aux ctx t i)

/-! ## Lemmas: menu dispatch -/

theorem map_id_filter (events : List ActionEvent) (P : String → Bool) :
    (events.filter (fun e => P e.id)).map (fun e => e.id)
      = (events.map (fun e => e.id)).filter P := by
  induction events with
  | nil => rfl
  | cons e rest ih =>
    by_cases h : P e.id = true
    · simp [List.filter_cons, h, ih]
    · simp only [Bool.not_eq_true] at h
      simp [List.filter_cons, h, ih]

theorem runMenuEvents_spec (events : List ActionEvent) :
    ∀ ctx : Ctx, events.all (fun e => errorFreeTable e.table) = true →
      (runMenuEvents ctx events).outcome = .ok () ∧
      (runMenuEvents ctx events).eventTrace
        = (events.filter
            (fun e => e.id == "on_menu_select" || e.id == "on_menu_unselect")).map
            (fun e => e.id) ∧
      (runMenuEvents ctx events).events.map (fun e => e.id) = events.map (fun e => e.id) ∧
      (runMenuEvents ctx events).events.all (fun e => errorFreeTable e.table) = true := by
  induction events with
  | nil => intro ctx _; exact ⟨rfl, rfl, rfl, rfl⟩
  | cons e rest ih =>
    intro ctx hfree
    rw [List.all_cons, Bool.and_eq_true] at hfree
    obtain ⟨hfe, hfrest⟩ := hfree
    by_cases hid : (e.id == "on_menu_select" || e.id == "on_menu_unselect") = true
    · have hok : (ActionEvent.execute e ctx).outcome = .ok () :=
        runFrom_outcome_ok ctx e.table e.entrypoint hfe
      have hsub : (ActionEvent.execute e ctx).table.Sublist e.table :=
        runFrom_table_sublist ctx e.table e.entrypoint
      have hfree' : errorFreeTable (ActionEvent.execute e ctx).table = true :=
        errorFreeTable_sublist e.table _ hsub hfe
      obtain ⟨ih1, ih2, ih3, ih4⟩ := ih (ActionEvent.execute e ctx).ctx hfrest
      unfold runMenuEvents
      rw [if_pos hid]
      dsimp only
      simp only [hok]
      refine ⟨ih1, ?_, ?_, ?_⟩
      · simp [List.filter_cons, hid, ih2]
      · simp only [List.map_cons, ih3]
      · rw [List.all_cons, Bool.and_eq_true]
        exact ⟨hfree', ih4⟩
    · obtain ⟨ih1, ih2, ih3, ih4⟩ := ih ctx hfrest
      unfold runMenuEvents
      rw [if_neg hid]
      dsimp only
      simp only [Bool.not_eq_true] at hid
      refine ⟨ih1, ?_, ?_, ?_⟩
      · simp [List.filter_cons, hid, ih2]
      · simp only [List.map_cons, ih3]
      · rw [List.all_cons, Bool.and_eq_true]
        exact ⟨hfe, ih4⟩

theorem keyShape_find (key : List (String × ActionEnvironment)) (label : String) :
    (keyShape key).find? (fun p => p.1 == label)
      = (key.find? (fun p => p.1 == label)).map (fun p => (p.1, eventIds p.2)) := by
  induction key with
  | nil => rfl
  | cons p rest ih =>
    by_cases hp : (p.1 == label) = true
    · simp [keyShape, List.find?_cons, hp]
    · simp only [Bool.not_eq_true] at hp
      simpa [keyShape, List.find?_cons, hp] using ih

theorem keyShape_assocSet (key : List (String × ActionEnvironment)) (label : String)
    (env env' : ActionEnvironment)
    (hfind : (key.find? (fun p => p.1 == label)).map (fun p => p.2) = some env)
    (hids : eventIds env' = eventIds env) :
    keyShape (assocSet key label env') = keyShape key := by
  induction key with
  | nil => simp [List.find?_nil] at hfind
  | cons p rest ih =>
    by_cases hp : (p.1 == label) = true
    · have hlab : p.1 = label := by simpa using hp
      have henv : p.2 = env := by
        simp only [List.find?_cons, hp] at hfind
        simpa using hfind
      rcases p with ⟨k, v⟩
      simp only at hlab henv
      subst hlab
      subst henv
      simp [assocSet, keyShape, hids]
    · have hne : ¬ p.1 = label := by simpa using hp
      have hfind' : (rest.find? (fun p => p.1 == label)).map (fun p => p.2) = some env := by
        simpa [List.find?_cons, hp] using hfind
      rcases p with ⟨k, v⟩
      simp only at hne
      have : (k == label) = false := by simpa using hne
      have hrec := ih hfind'
      simp only [keyShape] at hrec
      simp [assocSet, this, keyShape, hrec]

theorem all_assocSet {β : Type} (p : String × β → Bool) (l : List (String × β)) (k : String)
    (v : β) (hl : l.all p = true) (hv : p (k, v) = true) : (assocSet l k v).all p = true := by
  induction l with
  | nil => simpa [assocSet] using hv
  | cons q rest ih =>
    rw [List.all_cons, Bool.and_eq_true] at hl
    by_cases hq : (q.1 == k) = true
    · rcases q with ⟨k', v'⟩
      simp only [assocSet]
      rw [if_pos hq]
      rw [List.all_cons, Bool.and_eq_true]
      exact ⟨hv, hl.2⟩
    · rcases q with ⟨k', v'⟩
      simp only [assocSet]
      rw [if_neg (by simpa using hq)]
      rw [List.all_cons, Bool.and_eq_true]
      exact ⟨hl.1, ih hl.2⟩

theorem all_find_val {β : Type} (p : β → Bool) (l : List (String × β)) (label : String)
    (v : β) (hl : l.all (fun q => p q.2) = true)
    (hfind : (l.find? (fun q => q.1 == label)).map (fun q => q.2) = some v) : p v = true := by
  rcases Option.map_eq_some'.mp hfind with ⟨q, hq, hq2⟩
  have hmem := List.mem_of_find?_eq_some hq
  rw [List.all_eq_true] at hl
  rw [← hq2]
  exact hl q hmem

theorem runSelected_spec (labels : List String) :
    ∀ (ctx : Ctx) (key : List (String × ActionEnvironment)), keyErrorFree key = true →
      (runSelected ctx key labels).outcome = .ok () ∧
      (runSelected ctx key labels).runTrace = menuTraceSpec (keyShape key) labels := by
  induction labels with
  | nil => intro ctx key _; exact ⟨rfl, rfl⟩
  | cons label rest ih =>
    intro ctx key hfree
    cases hfind : (key.find? (fun p => p.1 == label)).map (fun p => p.2) with
    | none =>
      obtain ⟨ih1, ih2⟩ := ih ctx key hfree
      unfold runSelected
      simp only [hfind]
      refine ⟨ih1, ?_⟩
      have hshape : (keyShape key).find? (fun p => p.1 == label) = none := by
        rw [keyShape_find]
        rw [Option.map_eq_none'.mp hfind]
        rfl
      unfold menuTraceSpec
      simp only [hshape]
      exact ih2
    | some env =>
      have henvfree : envErrorFree env = true :=
        all_find_val envErrorFree key label env hfree hfind
      have hallev : env.events.all (fun e => errorFreeTable e.table) = true := henvfree
      obtain ⟨hok, htr, hids, hfree'⟩ := runMenuEvents_spec env.events ctx hallev
      have hexec : env.execute .selectMenu ctx = runMenuEvents ctx env.events := rfl
      have hnewids : eventIds ⟨env.envType, (runMenuEvents ctx env.events).events⟩
          = eventIds env := hids
      have hshape' : keyShape (assocSet key label
            ⟨env.envType, (runMenuEvents ctx env.events).events⟩) = keyShape key :=
        keyShape_assocSet key label env _ hfind hnewids
      have hfreenew : envErrorFree
          ⟨env.envType, (runMenuEvents ctx env.events).events⟩ = true := hfree'
      have hkeyfree' : keyErrorFree (assocSet key label
            ⟨env.envType, (runMenuEvents ctx env.events).events⟩) = true :=
        all_assocSet (fun q => envErrorFree q.2) key label _ hfree hfreenew
      obtain ⟨ih1, ih2⟩ := ih (runMenuEvents ctx env.events).ctx _ hkeyfree'
      unfold runSelected
      simp only [hfind, hexec, hok]
      refine ⟨ih1, ?_⟩
      have hshapefind : (keyShape key).find? (fun p => p.1 == label)
          = some (label, eventIds env) := by
        rw [keyShape_find]
        rcases Option.map_eq_some'.mp hfind with ⟨q, hq, hq2⟩
        rw [hq]
        have : q.1 = label := by simpa using List.find?_some hq
        simp [this, hq2]
      unfold menuTraceSpec
      simp only [hshapefind]
      rw [ih2, hshape']
      rw [htr]
      simp [map_id_filter env.events
        (fun s => s == "on_menu_select" || s == "on_menu_unselect"), eventIds]

/-! ## Lemmas: graph loading -/

theorem Action.build_id (j : ActionJson) (a : Action) (h : Action.build j = .ok a) :
    a.actionId = j.id := by
  unfold Action.build at h
  split_ifs at h <;> (repeat' split at h) <;>
    first
      | (injection h with h2; subst h2; rfl)
      | exact Except.noConfusion h

theorem buildActions_ids (js : List ActionJson) :
    ∀ as : List Action, buildActions js = .ok as →
      as.map Action.actionId = js.map (fun j => j.id) := by
  induction js with
  | nil =>
    intro as h
    injection h with h2
    subst h2
    rfl
  | cons j rest ih =>
    intro as h
    unfold buildActions at h
    cases hb : Action.build j with
    | error e =>
      simp only [hb] at h
      exact Except.noConfusion h
    | ok a =>
      simp only [hb] at h
      cases hr : buildActions rest with
      | error e =>
        simp only [hr] at h
        exact Except.noConfusion h
      | ok as' =>
        simp only [hr] at h
        injection h with h2
        subst h2
        simp only [List.map_cons]
        rw [Action.build_id j a hb, ih as' hr]

theorem lookupTable_assocSet_ne (t : List (String × Action)) (k k' : String) (v : Action)
    (h : lookupTable (assocSet t k' v) k ≠ none) : k = k' ∨ lookupTable t k ≠ none := by
  induction t with
  | nil =>
    left
    by_cases hk : (k' == k) = true
    · have hkk : k' = k := by simpa using hk
      exact hkk.symm
    · exfalso
      apply h
      simp only [assocSet, lookupTable, List.find?]
      simp only [hk]
      rfl
  | cons p rest ih =>
    rcases p with ⟨a, b⟩
    by_cases ha : (a == k') = true
    · have hset : assocSet ((a, b) :: rest) k' v = (k', v) :: rest := by
        simp [assocSet, ha]
      rw [hset] at h
      by_cases hk : (k' == k) = true
      · have hkk : k' = k := by simpa using hk
        exact Or.inl hkk.symm
      · right
        have hlr : lookupTable rest k ≠ none := by
          simpa [lookupTable, List.find?_cons, hk] using h
        by_cases hak : (a == k) = true
        · simp [lookupTable, List.find?_cons, hak]
        · simpa [lookupTable, List.find?_cons, hak] using hlr
    · have hset : assocSet ((a, b) :: rest) k' v = (a, b) :: assocSet rest k' v := by
        simp [assocSet, ha]
      rw [hset] at h
      by_cases hak : (a == k) = true
      · right
        simp [lookupTable, List.find?_cons, hak]
      · have hrest : lookupTable (assocSet rest k' v) k ≠ none := by
          simpa [lookupTable, List.find?_cons, hak] using h
        rcases ih hrest with h1 | h1
        · exact Or.inl h1
        · right
          simpa [lookupTable, List.find?_cons, hak] using h1

theorem lookup_foldl_assocSet (as : List Action) :
    ∀ (t : List (String × Action)) (k : String),
      lookupTable (as.foldl (fun t a => assocSet t a.actionId a) t) k ≠ none →
      lookupTable t k ≠ none ∨ k ∈ as.map Action.actionId := by
  induction as with
  | nil => intro t k h; exact Or.inl h
  | cons a rest ih =>
    intro t k h
    simp only [List.foldl_cons] at h
    rcases ih (assocSet t a.actionId a) k h with h1 | h1
    · rcases lookupTable_assocSet_ne t k a.actionId a h1 with h2 | h2
      · right
        simp [h2]
      · exact Or.inl h2
    · right
      simp [h1]

theorem buildTable_keys (as : List Action) (k : String)
    (h : lookupTable (buildTable as) k ≠ none) : k ∈ as.map Action.actionId := by
  rcases lookup_foldl_assocSet as [] k h with h1 | h1
  · exact absurd rfl h1
  · exact h1

/-! ## Lemmas: single traversal steps -/

theorem runFromAux_step_error (fuel : Nat) (ctx : Ctx) (t : List (String × Action))
    (i : String) (a : Action) (e : RunError) (h : lookupTable t i = some a)
    (hcall : (a.call ctx).2.2 = .error e) :
    runFromAux (fuel + 1) ctx t i
      = some ⟨(a.call ctx).1, (a.call ctx).2.1, [i], .error e, removeKey t i⟩ := by
  unfold runFromAux
  simp [h, hcall]

theorem runFrom_step_error (ctx : Ctx) (t : List (String × Action)) (i : String)
    (a : Action) (e : RunError) (h : lookupTable t i = some a)
    (hcall : (a.call ctx).2.2 = .error e) :
    runFrom ctx t i = ⟨(a.call ctx).1, (a.call ctx).2.1, [i], .error e, removeKey t i⟩ := by
  unfold runFrom
  rw [runFromAux_step_error t.length ctx t i a e h hcall]
  rfl

theorem runFromAux_step_finish (fuel : Nat) (ctx : Ctx) (t : List (String × Action))
    (i : String) (a : Action) (h : lookupTable t i = some a)
    (hcall : (a.call ctx).2.2 = .ok none ∨ (a.call ctx).2.2 = .ok (some .exit)) :
    runFromAux (fuel + 1) ctx t i
      = some ⟨(a.call ctx).1, (a.call ctx).2.1, [i], .ok (), removeKey t i⟩ := by
  unfold runFromAux
  rcases hcall with hcall | hcall <;> simp [h, hcall]

theorem runFrom_step_finish (ctx : Ctx) (t : List (String × Action)) (i : String)
    (a : Action) (h : lookupTable t i = some a)
    (hcall : (a.call ctx).2.2 = .ok none ∨ (a.call ctx).2.2 = .ok (some .exit)) :
    runFrom ctx t i = ⟨(a.call ctx).1, (a.call ctx).2.1, [i], .ok (), removeKey t i⟩ := by
  unfold runFrom
  rw [runFromAux_step_finish t.length ctx t i a h hcall]
  rfl

/-! ## Claim theorems -/

/-- Claim C1: for every action graph, including one containing a cycle
reachable from the entrypoint, a traversal executes each node at most once
(the executed ids are pairwise distinct, and every executed node was removed
from the node table when looked up and is absent from the final table), and
it reaches its final state within `|nodes|` transitions, one transition per
node execution; on an error-free table that final state is `Terminated`
(`Except.ok ()`).  Totality of `runFrom` is the termination guarantee even
for cyclic graphs. -/
theorem claim_C1_cycle_safety (ctx : Ctx) (t : List (String × Action)) (i : String) :
    (runFrom ctx t i).execTrace.Nodup ∧
    (runFrom ctx t i).execTrace.length ≤ t.length ∧
    (∀ j ∈ (runFrom ctx t i).execTrace, lookupTable (runFrom ctx t i).table j = none) ∧
    (errorFreeTable t = true → (runFrom ctx t i).outcome = .ok ()) := by
  obtain ⟨h1, h2, h3, h4, h5⟩ :=
    runFromAux_spec (t.length + 1) ctx t i (runFrom ctx t i) (runFrom_eq_aux ctx t i)
  exact ⟨h1, h2, h4, fun hfree => runFrom_outcome_ok ctx t i hfree⟩

/-- Witness for C1 on a concrete cyclic two-node graph: both nodes execute
exactly once and the traversal reaches `Terminated`. -/
theorem claim_C1_cycle_safety_witness :
    errorFreeTable tCyc = true ∧
    (runFrom ctx0 tCyc "a").execTrace.Nodup ∧
    (runFrom ctx0 tCyc "a").execTrace.length ≤ tCyc.length ∧
    (runFrom ctx0 tCyc "a").outcome = .ok () :=
  ⟨by decide,
   (claim_C1_cycle_safety ctx0 tCyc "a").1,
   (claim_C1_cycle_safety ctx0 tCyc "a").2.1,
   (claim_C1_cycle_safety ctx0 tCyc "a").2.2.2 (by decide)⟩

/-- Claim C2 (counterexample): on `[[c], []]` with `c` evaluating true,
neither of the claim's vacuous special cases applies (the outer list and its
first group are nonempty), yet `_check_conditions` returns `true` while the
claimed AND-of-(textbook OR) formula yields `false`, because the code's OR
over the empty second group is `True` rather than `false`. -/
theorem claim_C2_counterexample :
    ([[0], []] : List (List Nat)) ≠ [] ∧
    ([0] : List Nat) ≠ [] ∧
    (check_conditions (fun _ : Nat => true) [[0], []]).1 = true ∧
    andOfOr (fun _ : Nat => true) [[0], []] = false := by
  decide

/-- Claim C2 (amended): condition evaluation returns AND over the outer
groups of (OR over the conditions in each group, a group with no conditions
counting as true); an empty outer list, or an outer list whose first group
is empty, returns true with no condition evaluated; a false group stops
evaluation of the remaining groups, but every condition inside an evaluated
OR group is evaluated even after one member has already returned true, and a
group's result is exactly its disjunction, so it cannot change once any
member is true. -/
theorem claim_C2_and_of_or (α : Type) (eval : α → Bool) (cs : List (List α)) :
    (check_conditions eval cs).1 = andOfOrVac eval cs ∧
    (check_conditions eval cs).2 = evalTraceSpec eval cs ∧
    (∀ g : List α, (check_or_group eval g).2 = g) ∧
    (∀ g : List α, (check_or_group eval g).1 = (g.isEmpty || g.any eval)) ∧
    (∀ g : List α, ∀ c ∈ g, eval c = true → (check_or_group eval g).1 = true) := by
  refine ⟨check_conditions_result eval cs, check_conditions_trace eval cs,
    fun g => check_or_group_trace eval g, fun g => check_or_group_result eval g, ?_⟩
  intro g c hc hev
  rw [check_or_group_result]
  have hany : g.any eval = true := List.any_eq_true.mpr ⟨c, hc, hev⟩
  simp [hany]

/-- Witness for C2 (amended) at a concrete assignment. -/
theorem claim_C2_and_of_or_witness :
    (check_conditions (fun n : Nat => n == 1) [[0, 1], [2]]).1
      = andOfOrVac (fun n : Nat => n == 1) [[0, 1], [2]] ∧
    (check_or_group (fun n : Nat => n == 1) [0, 1]).1 = true :=
  ⟨(claim_C2_and_of_or Nat (fun n => n == 1) [[0, 1], [2]]).1,
   (claim_C2_and_of_or Nat (fun n => n == 1) [[0, 1], [2]]).2.2.2.2
     [0, 1] 1 (by decide) (by decide)⟩

/-- Claim C9: a traversal step at `Ready(id)` where `id` is absent from the
node table terminates silently: no effect, no error, no node executed, the
table untouched — a normal end, not an error. -/
theorem claim_C9_dangling_silent_end (ctx : Ctx) (t : List (String × Action)) (i : String)
    (h : lookupTable t i = none) :
    runFrom ctx t i = ⟨ctx, [], [], .ok (), t⟩ := by
  unfold runFrom
  have hstep : runFromAux (t.length + 1) ctx t i = some ⟨ctx, [], [], .ok (), t⟩ := by
    unfold runFromAux
    simp [h]
  rw [hstep]
  rfl

/-- Witness for C9. -/
theorem claim_C9_dangling_witness :
    lookupTable [] "x" = none ∧ runFrom ctx0 [] "x" = ⟨ctx0, [], [], .ok (), []⟩ :=
  ⟨rfl, claim_C9_dangling_silent_end ctx0 [] "x" rfl⟩

/-- Claim C10: executing a traversal that reaches a REMOVE_ROLE node raises
an unhandled not-implemented error: the node's call yields neither a
`CallNext` nor an `Exit` signal but an escaping exception, the traversal
loop does not catch it, and the whole run aborts exceptionally (outcome
`Except.error`) with the node already removed from the node table. -/
theorem claim_C10_remove_role_not_implemented (ctx : Ctx) (t : List (String × Action))
    (i i' : String) (next : Option String)
    (h : lookupTable t i = some (.removeRole i' next)) :
    ((Action.removeRole i' next).call ctx).2.2 = .error .notImplemented ∧
    runFrom ctx t i = ⟨ctx, [], [i], .error .notImplemented, removeKey t i⟩ := by
  refine ⟨rfl, ?_⟩
  exact runFrom_step_error ctx t i (.removeRole i' next) .notImplemented h rfl

/-- Witness for C10. -/
theorem claim_C10_remove_role_witness :
    runFrom ctx0 [("r", .removeRole "r" none)] "r"
      = ⟨ctx0, [], ["r"], .error .notImplemented, []⟩ :=
  (claim_C10_remove_role_not_implemented ctx0 [("r", .removeRole "r" none)] "r" "r" none rfl).2

/-- Claim C3: on a menu-selection interaction, for every currently selected
option (in the dispatcher's option order), the events run for that option
are exactly the ones named `on_menu_select` / `on_menu_unselect` in that
option's environment, in the environment's event-declaration order — a
label with no environment is skipped — and, absent escaping exceptions, the
whole dispatch completes normally.  Sequential (never concurrent) execution
is inherent in the model: each event's traversal is awaited to completion,
its final context threaded into the next, before the next event or option
starts. -/
theorem claim_C3_menu_dispatch_order (ctx : Ctx) (key : List (String × ActionEnvironment))
    (labels : List String) (hfree : keyErrorFree key = true) :
    (runSelected ctx key labels).runTrace = menuTraceSpec (keyShape key) labels ∧
    (runSelected ctx key labels).outcome = .ok () := by
  obtain ⟨h1, h2⟩ := runSelected_spec labels ctx key hfree
  exact ⟨h2, h1⟩

/-- Witness for C3: one selected option with a matching environment whose
select and unselect events run in declaration order, and one selected
option with no environment, which is skipped. -/
theorem claim_C3_menu_dispatch_witness :
    keyErrorFree keyW = true ∧
    menuTraceSpec (keyShape keyW) ["opt1", "missing"]
      = [("opt1", ["on_menu_select", "on_menu_unselect"])] ∧
    (runSelected ctx0 keyW ["opt1", "missing"]).runTrace
      = menuTraceSpec (keyShape keyW) ["opt1", "missing"] ∧
    (runSelected ctx0 keyW ["opt1", "missing"]).outcome = .ok () :=
  ⟨by decide, by decide,
   (claim_C3_menu_dispatch_order ctx0 keyW ["opt1", "missing"] (by decide)).1,
   (claim_C3_menu_dispatch_order ctx0 keyW ["opt1", "missing"] (by decide)).2⟩

/-- Claim C4 (counterexample): in graph `tSE` the entry
`SEND_EPHEMERAL_MESSAGE` node declares a truthy `next = "b"` and its send
succeeds, yet the traversal ends with only the entry node executed — the
`ACK` node `"b"` never runs (no acknowledgment effect, `"b"` still in the
final table), contradicting "continues to its next node when a next id is
declared"; and a node whose payload lacks embed data raises `KeyError`
sending nothing, contradicting "sends exactly one response". -/
theorem claim_C4_counterexample :
    truthy (some "b") = true ∧
    (runFrom ctx0 tSE "s").effects
      = [.ephemeralResponse "hi" [("title", "t"), ("type", "rich")]] ∧
    (runFrom ctx0 tSE "s").outcome = .ok () ∧
    (runFrom ctx0 tSE "s").execTrace = ["s"] ∧
    lookupTable (runFrom ctx0 tSE "s").table "b" = some (.ack "b") ∧
    (Action.sendEphemeralMessage "s2" (some "hi") none none).call ctx0
      = (ctx0, [], .error (.keyError "embed")) := by
  refine ⟨rfl, ?_, ?_, ?_, ?_, rfl⟩ <;> rfl

/-- Claim C4 (amended): for every SendEphemeralMessage node whose payload
includes message content and embed data, execution sends exactly one
response visible only to the invoking user and then always ends the
traversal — the declared `next` id is stored but never followed, because
`call` returns without raising a continuation callback; when the payload
lacks embed data (resp. content), execution raises a key-lookup error and
sends nothing. -/
theorem claim_C4_send_ephemeral (ctx : Ctx) (t : List (String × Action)) (i i' : String)
    (c : String) (e : List (String × String)) (next : Option String)
    (h : lookupTable t i = some (.sendEphemeralMessage i' (some c) (some e) next)) :
    (runFrom ctx t i).effects
      = [.ephemeralResponse c (if e.isEmpty then e else assocSet e "type" "rich")] ∧
    (runFrom ctx t i).outcome = .ok () ∧
    (runFrom ctx t i).execTrace = [i] ∧
    (runFrom ctx t i).table = removeKey t i ∧
    (runFrom ctx t i).ctx = ctx ∧
    (∀ (i2 c2 : String) (n2 : Option String),
      (Action.sendEphemeralMessage i2 (some c2) none n2).call ctx
        = (ctx, [], .error (.keyError "embed"))) ∧
    (∀ (i2 : String) (e2 : Option (List (String × String))) (n2 : Option String),
      (Action.sendEphemeralMessage i2 none e2 n2).call ctx
        = (ctx, [], .error (.keyError "content"))) := by
  have hcall : (Action.sendEphemeralMessage i' (some c) (some e) next).call ctx
      = (ctx, [.ephemeralResponse c (if e.isEmpty then e else assocSet e "type" "rich")],
          .ok none) := by
    by_cases he : e.isEmpty = true
    · simp [Action.call, mutateEmbed, he]
    · simp [Action.call, mutateEmbed, he]
  have hstep := runFrom_step_finish ctx t i _ h (Or.inl (by rw [hcall]))
  rw [hstep, hcall]
  exact ⟨rfl, rfl, rfl, rfl, rfl, fun i2 c2 n2 => rfl, fun i2 e2 n2 => rfl⟩

/-- Witness for C4 (amended). -/
theorem claim_C4_send_ephemeral_witness :
    (runFrom ctx0 tSE "s").effects
      = [.ephemeralResponse "hi" [("title", "t"), ("type", "rich")]] ∧
    (runFrom ctx0 tSE "s").outcome = .ok () ∧
    (runFrom ctx0 tSE "s").execTrace = ["s"] :=
  ⟨(claim_C4_send_ephemeral ctx0 tSE "s" "s" "hi" [("title", "t")] (some "b") rfl).1,
   (claim_C4_send_ephemeral ctx0 tSE "s" "s" "hi" [("title", "t")] (some "b") rfl).2.1,
   (claim_C4_send_ephemeral ctx0 tSE "s" "s" "hi" [("title", "t")] (some "b") rfl).2.2.1⟩

/-- Claim C5: building an ACK node that declares a (truthy) next id raises
ValueError at load time, so the graph fails to load and nothing executes;
building one without a next id succeeds; a validly built ACK node's
execution creates exactly one acknowledgment response and always signals
`Exit`, and a traversal reaching it terminates with exactly that one
response. -/
theorem claim_C5_ack (j : ActionJson) (ctx : Ctx) (t : List (String × Action))
    (i aid : String) (hcmd : j.command = "ACK")
    (hl : lookupTable t i = some (.ack aid)) :
    (truthy j.next = true → Action.build j = .error .valueError) ∧
    (truthy j.next = false → Action.build j = .ok (.ack j.id)) ∧
    (Action.ack aid).call ctx = (ctx, [.ackResponse], .ok (some .exit)) ∧
    runFrom ctx t i = ⟨ctx, [.ackResponse], [i], .ok (), removeKey t i⟩ := by
  refine ⟨?_, ?_, rfl, ?_⟩
  · intro htr
    simp [Action.build, hcmd, htr]
  · intro htr
    simp [Action.build, hcmd, htr]
  · exact runFrom_step_finish ctx t i (.ack aid) hl (Or.inr rfl)

/-- Witness for C5. -/
theorem claim_C5_ack_witness :
    Action.build ⟨"a", "ACK", payload0, some "b"⟩ = .error .valueError ∧
    Action.build ⟨"a", "ACK", payload0, none⟩ = .ok (.ack "a") ∧
    runFrom ctx0 [("a", .ack "a")] "a" = ⟨ctx0, [.ackResponse], ["a"], .ok (), []⟩ :=
  ⟨(claim_C5_ack ⟨"a", "ACK", payload0, some "b"⟩ ctx0 [("a", .ack "a")] "a" "a"
      rfl rfl).1 rfl,
   (claim_C5_ack ⟨"a", "ACK", payload0, none⟩ ctx0 [("a", .ack "a")] "a" "a"
      rfl rfl).2.1 rfl,
   (claim_C5_ack ⟨"a", "ACK", payload0, none⟩ ctx0 [("a", .ack "a")] "a" "a"
      rfl rfl).2.2.2⟩

/-- Claim C6: loading a graph document whose entrypoint id is not among its
action ids fails with an exception raised while building the graph, before
any node executes.  `ActionEvent.build` has no effect component in its type,
so a failed build produces zero side effects: no node execution, no
response, no role mutation. -/
theorem claim_C6_missing_entrypoint (j : EventJson)
    (h : j.entrypoint ∉ j.actions.map (fun a => a.id)) :
    ∃ e, ActionEvent.build j = .error e := by
  cases hb : buildActions j.actions with
  | error e =>
    refine ⟨e, ?_⟩
    unfold ActionEvent.build
    rw [hb]
  | ok as =>
    cases hl : lookupTable (buildTable as) j.entrypoint with
    | none =>
      refine ⟨.keyError j.entrypoint, ?_⟩
      unfold ActionEvent.build
      rw [hb]
      simp only [hl]
    | some a =>
      exfalso
      have hmem : j.entrypoint ∈ as.map Action.actionId :=
        buildTable_keys as j.entrypoint (by rw [hl]; simp)
      rw [buildActions_ids j.actions as hb] at hmem
      exact h hmem

/-- Witness for C6. -/
theorem claim_C6_missing_entrypoint_witness :
    ("x" ∉ jEv.actions.map (fun a => a.id)) ∧ ∃ e, ActionEvent.build jEv = .error e :=
  ⟨by decide, claim_C6_missing_entrypoint jEv (by decide)⟩

/-- Claim C7: when an AddRole node's role mutation fails with an HTTP
error, execution routes to the `on_http_error` fallback id when one is
present in the node's callbacks, otherwise falls back to the node's `next`
id, and either way yields `CallNext`/`Exit` per the usual next-resolution
rule; adding a role the user already holds is not an error (a platform
no-op) and follows the normal `next` routing with no mutation and no
effect.  (`Action.build` always leaves `on_http_error` unset — nothing in
the source populates `callbacks` — so the fallback-to-`next` branch is the
only one reachable from a loaded graph.) -/
theorem claim_C7_add_role_error_routing (ctx : Ctx) (i : String) (rid : Nat)
    (next cbs : Option String)
    (hnext : ∀ s, next = some s → s ≠ "")
    (hcbs : ∀ s, cbs = some s → s ≠ "") :
    (rid ∉ ctx.memberRoles → ctx.addFail rid = true →
      (Action.addRole i rid next cbs).call ctx
        = (ctx, [], .ok (some (nextSignal (match cbs with
            | some v => some v
            | none => next))))) ∧
    (rid ∈ ctx.memberRoles →
      (Action.addRole i rid next cbs).call ctx
        = (ctx, [], .ok (some (nextSignal next)))) := by
  constructor
  · intro hmem hfail
    cases cbs with
    | some v =>
      have hv : (v == "") = false := by simpa using hcbs v rfl
      simp [Action.call, hmem, hfail, truthy, hv, nextSignal]
    | none =>
      cases next with
      | some n =>
        have hn : (n == "") = false := by simpa using hnext n rfl
        simp [Action.call, hmem, hfail, truthy, hn, nextSignal]
      | none =>
        simp [Action.call, hmem, hfail, truthy, nextSignal]
  · intro hmem
    simp [Action.call, hmem]

/-- Witness for C7: a rejected grant with a populated fallback routes to it,
a rejected grant without one falls back to `next`, and a grant of an
already-held role routes normally. -/
theorem claim_C7_add_role_witness :
    (Action.addRole "r" 5 (some "n") (some "h")).call ctxF
      = (ctxF, [], .ok (some (.callNext "h"))) ∧
    (Action.addRole "r" 5 (some "n") none).call ctxF
      = (ctxF, [], .ok (some (.callNext "n"))) ∧
    (Action.addRole "r" 5 (some "n") none).call ctxH
      = (ctxH, [], .ok (some (.callNext "n"))) :=
  ⟨(claim_C7_add_role_error_routing ctxF "r" 5 (some "n") (some "h")
      (fun s hs => by injection hs with h2; subst h2; decide)
      (fun s hs => by injection hs with h2; subst h2; decide)).1 (by decide) rfl,
   (claim_C7_add_role_error_routing ctxF "r" 5 (some "n") none
      (fun s hs => by injection hs with h2; subst h2; decide)
      (fun s hs => by exact Option.noConfusion hs)).1 (by decide) rfl,
   (claim_C7_add_role_error_routing ctxH "r" 5 (some "n") none
      (fun s hs => by injection hs with h2; subst h2; decide)
      (fun s hs => by exact Option.noConfusion hs)).2 (by decide)⟩

/-- Claim C8: a RemoveRoleGroup node whose group name resolves to no rows
does not terminate the traversal early — its call produces no effect, no
error, and still signals the usual next-resolution outcome; in every case
the call signals `nextSignal next`, and the member keeps exactly the roles
that were held and are not part of the resolved group (so only currently
held roles from the group are removed), the single removal effect carrying
exactly the group's held roles when there are any. -/
theorem claim_C8_remove_role_group (ctx : Ctx) (i g : String) (next : Option String) :
    (ctx.roleGroups g = [] →
      (Action.removeRoleGroup i g next).call ctx = (ctx, [], .ok (some (nextSignal next)))) ∧
    ((Action.removeRoleGroup i g next).call ctx).2.2 = .ok (some (nextSignal next)) ∧
    (∀ r : Nat, r ∈ ((Action.removeRoleGroup i g next).call ctx).1.memberRoles
      ↔ (r ∈ ctx.memberRoles ∧ r ∉ ctx.roleGroups g)) ∧
    ((Action.removeRoleGroup i g next).call ctx).2.1
      = (if ((ctx.roleGroups g).filter (fun r => ctx.memberRoles.contains r)).isEmpty
          then []
          else [.roleRemove ((ctx.roleGroups g).filter
                  (fun r => ctx.memberRoles.contains r))]) := by
  by_cases h1 : (ctx.roleGroups g).isEmpty = true
  · have hnil : ctx.roleGroups g = [] := List.isEmpty_iff.mp h1
    have hc : (Action.removeRoleGroup i g next).call ctx
        = (ctx, [], .ok (some (nextSignal next))) := by
      simp only [Action.call]
      rw [if_pos h1]
    refine ⟨fun _ => hc, by rw [hc], ?_, ?_⟩
    · intro r
      rw [hc]
      simp [hnil]
    · rw [hc]
      simp [hnil]
  · by_cases h2 : ((ctx.roleGroups g).filter
        (fun r => ctx.memberRoles.contains r)).isEmpty = true
    · have hfil : (ctx.roleGroups g).filter (fun r => ctx.memberRoles.contains r) = [] :=
        List.isEmpty_iff.mp h2
      have hdisj : ∀ x ∈ ctx.roleGroups g, x ∉ ctx.memberRoles := by
        intro x hx
        have hx2 := List.filter_eq_nil_iff.mp hfil x hx
        simpa using hx2
      have hc : (Action.removeRoleGroup i g next).call ctx
          = (ctx, [], .ok (some (nextSignal next))) := by
        simp only [Action.call]
        rw [if_neg h1, if_pos h2]
      refine ⟨fun _ => hc, by rw [hc], ?_, ?_⟩
      · intro r
        rw [hc]
        constructor
        · intro hr
          exact ⟨hr, fun hg => hdisj r hg hr⟩
        · intro hr
          exact hr.1
      · rw [hc, hfil]
        simp
    · have hc : (Action.removeRoleGroup i g next).call ctx
          = (⟨ctx.memberRoles.filter
                (fun r => !(((ctx.roleGroups g).filter
                  (fun x => ctx.memberRoles.contains x)).contains r)),
              ctx.guildRoles, ctx.roleGroups, ctx.addFail⟩,
             [.roleRemove ((ctx.roleGroups g).filter
                (fun x => ctx.memberRoles.contains x))],
             .ok (some (nextSignal next))) := by
        simp only [Action.call]
        rw [if_neg h1, if_neg h2]
      refine ⟨?_, by rw [hc], ?_, ?_⟩
      · intro hnil
        exact absurd (by simp [hnil]) h1
      · intro r
        rw [hc]
        simp [List.mem_filter]
        tauto
      · rw [hc]
        simp only []
        rw [if_neg h2]

/-- Witness for C8. -/
theorem claim_C8_remove_role_group_witness :
    (Action.removeRoleGroup "g" "nope" (some "n")).call ctxG
      = (ctxG, [], .ok (some (.callNext "n"))) ∧
    ((Action.removeRoleGroup "g" "grp" (some "n")).call ctxG).2.2
      = .ok (some (.callNext "n")) ∧
    (2 ∈ ((Action.removeRoleGroup "g" "grp" (some "n")).call ctxG).1.memberRoles
      ↔ (2 ∈ ctxG.memberRoles ∧ 2 ∉ ctxG.roleGroups "grp")) :=
  ⟨(claim_C8_remove_role_group ctxG "g" "nope" (some "n")).1 (by decide),
   (claim_C8_remove_role_group ctxG "g" "grp" (some "n")).2.1,
   (claim_C8_remove_role_group ctxG "g" "grp" (some "n")).2.2.1 2⟩

end DungeonWhisperer
